import Mathlib

/-!
Shallow embedding of the agent-api knowledge retrieval and tool
orchestration engine (src/index.ts, src/utils.ts, src/types.ts).

Strings are modelled by Lean strings (the documents and messages involved
are ASCII, so JavaScript UTF-16 lengths agree with Lean codepoint counts).
JavaScript numbers that carry similarity scores are modelled by rationals.
External collaborators (the completion service, the embedding service, the
calendar client, the JSON engine of the host) are modelled as explicit
oracle parameters, so every theorem quantifies over their behaviour.
-/

/-! ## JavaScript string primitives -/

/-- Whitespace class of JavaScript regular expressions, restricted to the
ASCII range that the documents of this repository use. -/
def jsWsChar (c : Char) : Bool :=
  c == ' ' || c == '\t' || c == '\n' || c == '\r' || c == '\x0b' || c == '\x0c'

/-- Models String.prototype.toLowerCase for the ASCII texts involved. -/
def toLowerStr (s : String) : String := String.mk (s.data.map Char.toLower)

/-- Tests whether the first list occurs at the head of the second. -/
def strStarts : List Char → List Char → Bool
  | [], _ => true
  | _ :: _, [] => false
  | a :: as, b :: bs => a == b && strStarts as bs

/-- Tests whether the first list occurs anywhere in the second. -/
def strHas (needle : List Char) : List Char → Bool
  | [] => strStarts needle []
  | c :: t => strStarts needle (c :: t) || strHas needle t

/-- Models String.prototype.includes. -/
def strIncludes (hay needle : String) : Bool := strHas needle.data hay.data

/-- Tests whether the second string is a suffix of the first. -/
def strEnds (s suffixStr : String) : Bool :=
  strStarts suffixStr.data.reverse s.data.reverse

theorem dropWhile_length_le (p : α → Bool) (l : List α) :
    (l.dropWhile p).length ≤ l.length := by
  induction l with
  | nil => simp
  | cons c t ih =>
    by_cases h : p c = true
    · simp only [List.dropWhile_cons, h, if_true]
      exact Nat.le_succ_of_le ih
    · simp [List.dropWhile_cons, h]

/-- Worker for jsSplitWs, fuelled by the length of the text: walks the
characters, emitting a piece at the first character of every whitespace
run, exactly as splitting on the regular expression of one-or-more
whitespace characters does. -/
def splitWsGo : Nat → List Char → List Char → List String
  | _, [], acc => [String.mk acc.reverse]
  | 0, rest, acc => [String.mk (acc.reverse ++ rest)]
  | fuel + 1, c :: t, acc =>
    if jsWsChar c then
      String.mk acc.reverse :: splitWsGo fuel (t.dropWhile jsWsChar) []
    else splitWsGo fuel t (c :: acc)

/-- Models s.split on one-or-more whitespace: JavaScript keeps the empty
leading and trailing pieces that arise when the string starts or ends with
whitespace, and returns one empty piece for the empty string. -/
def jsSplitWs (s : String) : List String := splitWsGo s.data.length s.data []

/-- Characters of the matched run that stand strictly after its last
newline. -/
def afterLastNl (l : List Char) : List Char :=
  (l.reverse.takeWhile (fun c => !(c == '\n'))).reverse

/-- Worker for jsSplitParagraphs, fuelled by the length of the text. A
separator match of the source regular expression (newline, then greedy
whitespace, then newline) starts at a newline whose following whitespace
run contains another newline, and extends to the last newline of that
run. -/
def splitParasGo : Nat → List Char → List Char → List (List Char)
  | _, [], acc => [acc.reverse]
  | 0, rest, acc => [acc.reverse ++ rest]
  | fuel + 1, c :: cs, acc =>
    let run := cs.takeWhile jsWsChar
    if c == '\n' && run.contains '\n' then
      acc.reverse :: splitParasGo fuel (afterLastNl run ++ cs.drop run.length) []
    else splitParasGo fuel cs (c :: acc)

/-- Models content.split on the blank-line regular expression used by
chunkContent: a newline, greedy whitespace, then a newline. -/
def jsSplitParagraphs (s : String) : List String :=
  (splitParasGo s.data.length s.data []).map String.mk

/-- Joins a list of strings with a separator, as Array.prototype.join
does. -/
def joinWith (sep : String) : List String → String
  | [] => ""
  | [x] => x
  | x :: y :: t => x ++ sep ++ joinWith sep (y :: t)

/-- Terminal punctuation recognised by the sentence-splitting regular
expression of extractRelevantExcerpt. -/
def isTermChar (c : Char) : Bool := c == '.' || c == '!' || c == '?'

/-- Worker for jsMatchSentences, fuelled by the length of the text: each
match is a maximal run of non-terminal characters followed by a maximal
run of terminal punctuation; a final run without terminator is not a
match, exactly as the global regular expression behaves. -/
def sentencesGo : Nat → List Char → List (List Char)
  | _, [] => []
  | 0, _ => []
  | fuel + 1, cs =>
    let cs1 := cs.dropWhile isTermChar
    let nont := cs1.takeWhile (fun c => !isTermChar c)
    let rest := cs1.drop nont.length
    let term := rest.takeWhile isTermChar
    if nont.isEmpty || term.isEmpty then []
    else (nont ++ term) :: sentencesGo fuel (rest.drop term.length)

/-- Models content.match of the global sentence regular expression (one or
more non-terminal characters followed by one or more of period, bang or
question mark), with the null result represented by the empty list. -/
def jsMatchSentences (s : String) : List String :=
  (sentencesGo s.data.length s.data).map String.mk

/-- Worker for countOccurrences, fuelled by the length of the text: counts
non-overlapping leftmost occurrences, advancing past each match exactly as
a global regular expression search does. -/
def countOccurGo : Nat → List Char → List Char → Nat
  | _, _, [] => 0
  | 0, _, _ => 0
  | fuel + 1, pat, c :: t =>
    if strStarts pat (c :: t) then
      1 + countOccurGo fuel pat (t.drop (pat.length - 1))
    else countOccurGo fuel pat t

/-- Number of non-overlapping occurrences of a nonempty literal pattern in
a text, scanning left to right. -/
def countOccurrences (pattern text : String) : Nat :=
  countOccurGo text.data.length pattern.data text.data

/-! ## Comparator sort

The source sorts search results with Array.prototype.sort and the
comparator subtracting relevance scores, a stable sort that orders the
scores descending. jsSortBy is a stable insertion sort over the relation
that tells whether its first argument may stay in front of its second. -/

def jsInsert (le : α → α → Bool) (x : α) : List α → List α
  | [] => [x]
  | y :: t => if le y x then y :: jsInsert le x t else x :: y :: t

def jsSortBy (le : α → α → Bool) : List α → List α
  | [] => []
  | x :: t => jsInsert le x (jsSortBy le t)

theorem mem_jsInsert {le : α → α → Bool} {x a : α} {l : List α} :
    a ∈ jsInsert le x l ↔ a = x ∨ a ∈ l := by
  induction l with
  | nil => simp [jsInsert]
  | cons y t ih =>
    by_cases h : le y x = true
    · simp only [jsInsert, if_pos h, List.mem_cons, ih]
      tauto
    · simp [jsInsert, if_neg h]

theorem mem_jsSortBy {le : α → α → Bool} {a : α} {l : List α} :
    a ∈ jsSortBy le l ↔ a ∈ l := by
  induction l with
  | nil => simp [jsSortBy]
  | cons x t ih => simp [jsSortBy, mem_jsInsert, ih]

theorem length_jsInsert (le : α → α → Bool) (x : α) (l : List α) :
    (jsInsert le x l).length = l.length + 1 := by
  induction l with
  | nil => rfl
  | cons y t ih =>
    by_cases h : le y x = true
    · simp [jsInsert, if_pos h, ih]
    · simp [jsInsert, if_neg h]

theorem length_jsSortBy (le : α → α → Bool) (l : List α) :
    (jsSortBy le l).length = l.length := by
  induction l with
  | nil => rfl
  | cons x t ih => simp [jsSortBy, length_jsInsert, ih]

theorem pairwise_jsInsert {le : α → α → Bool}
    (htot : ∀ a b, le a b = true ∨ le b a = true)
    (htrans : ∀ a b c, le a b = true → le b c = true → le a c = true)
    (x : α) {l : List α} (h : l.Pairwise (fun a b => le a b = true)) :
    (jsInsert le x l).Pairwise (fun a b => le a b = true) := by
  induction h with
  | nil => simp [jsInsert]
  | @cons y t hy ht ih =>
    by_cases hyx : le y x = true
    · simp only [jsInsert, if_pos hyx]
      refine List.Pairwise.cons ?_ ih
      intro z hz
      rcases mem_jsInsert.mp hz with rfl | hz
      · exact hyx
      · exact hy z hz
    · simp only [jsInsert, if_neg hyx]
      have hxy : le x y = true := (htot x y).resolve_right (fun h2 => hyx h2)
      refine List.Pairwise.cons ?_ (List.Pairwise.cons hy ht)
      intro z hz
      rcases List.mem_cons.mp hz with rfl | hz
      · exact hxy
      · exact htrans x y z hxy (hy z hz)

theorem pairwise_jsSortBy {le : α → α → Bool}
    (htot : ∀ a b, le a b = true ∨ le b a = true)
    (htrans : ∀ a b c, le a b = true → le b c = true → le a c = true)
    (l : List α) :
    (jsSortBy le l).Pairwise (fun a b => le a b = true) := by
  induction l with
  | nil => simp [jsSortBy]
  | cons x t ih => exact pairwise_jsInsert htot htrans x ih

/-! ## Data model (src/types.ts) -/

inductive Role
  | system
  | user
  | assistant
  | tool
deriving DecidableEq, Repr

/-- Nested function payload of a completion tool call, mirroring the
toolCall.function shape of the completion service response. -/
structure ToolFunctionSpec where
  name : String
  arguments : String
deriving DecidableEq, Repr

structure ToolCall where
  id : String
  function : ToolFunctionSpec
deriving DecidableEq, Repr

/-- Conversation message. The optional tool_calls field is not declared in
the Message interface of types.ts, but chatWithBot pushes an object
carrying it into the live message list, so the runtime value is part of
the model. -/
structure Message where
  role : Role
  content : String
  tool_call_id : Option String := none
  name : Option String := none
  tool_calls : Option (List ToolCall) := none
deriving DecidableEq, Repr

/-- Message shape accepted by the completion client: the assistant variant
carries only role and content, which is how convertToOpenAIMessage drops
pending tool-call requests. -/
inductive OpenAIMessage
  | system (content : String)
  | user (content : String)
  | assistant (content : String)
  | tool (content : String) (tool_call_id : String)
deriving DecidableEq, Repr

/-- Fields of the free-form metadata record that the source reads or
writes: the embedding vector, the chunk parent id and the chunk index. -/
structure DocMetadata where
  embedding : Option (List ℚ) := none
  parentId : Option String := none
  chunkIndex : Option Nat := none
deriving DecidableEq, Repr

structure KnowledgeDocument where
  id : String
  title : String
  content : String
  metadata : Option DocMetadata := none
deriving DecidableEq, Repr

structure VectorStoreEntry where
  documentId : String
  embedding : List ℚ
deriving DecidableEq, Repr

structure SearchResult where
  documentId : String
  title : String
  excerpt : String
  relevanceScore : ℚ
deriving DecidableEq, Repr

structure ChatResponse where
  response : String
  updatedHistory : List Message
deriving DecidableEq, Repr

/-- Completion response message: content may be null and the tool_calls
list may be absent. -/
structure AssistantTurn where
  content : Option String
  tool_calls : Option (List ToolCall)
deriving DecidableEq, Repr

/-- Raw persisted snapshot as read back by JSON.parse: both collections
are optional because loadKnowledgeBase checks their presence before
trusting the cache. persistKnowledgeBase always writes both. -/
structure RawPersisted where
  knowledgeBase : Option (List KnowledgeDocument) := none
  vectorStore : Option (List VectorStoreEntry) := none
  timestamp : String := ""
deriving DecidableEq, Repr

/-! ## Synonym expansion (src/utils.ts, getSynonymMap) -/

/-- Synonym table of getSynonymMap, in object insertion order. -/
def synonymMap : List (String × List String) := [
  ("cancel", ["cancelation", "cancelling", "reschedule", "abort", "terminate"]),
  ("appointment", ["meeting", "session", "consultation", "booking", "reservation"]),
  ("reschedule", ["change", "move", "adjust", "shift", "postpone"]),
  ("virtual", ["online", "remote", "digital", "video", "teleconference"]),
  ("policy", ["rule", "guideline", "regulation", "procedure", "protocol"]),
  ("fee", ["charge", "cost", "payment", "price", "expense"]),
  ("late", ["tardy", "delayed", "behind schedule", "not on time"]),
  ("available", ["free", "open", "vacant", "accessible", "obtainable"]),
  ("unavailable", ["busy", "occupied", "booked", "reserved", "taken"]),
  ("doctor", ["physician", "specialist", "practitioner", "clinician"]),
  ("location", ["place", "venue", "site", "facility", "address"]),
  ("time", ["schedule", "slot", "hour", "period", "duration"])]

/-- Models Set.prototype.add on the insertion-ordered list representation
of a JavaScript Set of strings. -/
def setAdd (l : List String) (x : String) : List String :=
  if l.contains x then l else l ++ [x]

/-- One step of the expansion loop shared by extractRelevantExcerpt and
basicKeywordSearch: add the word itself, then for every synonym group the
word belongs to add the canonical term and all of its synonyms. -/
def expandWord (acc : List String) (word : String) : List String :=
  synonymMap.foldl
    (fun acc p =>
      if word == p.1 || p.2.contains word then
        p.2.foldl setAdd (setAdd acc p.1)
      else acc)
    (setAdd acc word)

/-- Expansion of a token list into the synonym-augmented set, in insertion
order. -/
def expandQueryWords (words : List String) : List String :=
  words.foldl expandWord []

/-! ## Chunker (src/utils.ts, chunkContent) -/

/-- Loop body of chunkContent: emit the running segment when appending the
next paragraph would push the separator-less concatenation over the limit
and the running segment is nonempty; otherwise append the paragraph,
inserting the blank-line separator only when the running segment is
nonempty. -/
def chunkLoop (maxChunkLength : Nat) : List String × String → String → List String × String
  | (chunks, currentChunk), paragraph =>
    if maxChunkLength < (currentChunk ++ paragraph).length ∧ 0 < currentChunk.length then
      (chunks ++ [currentChunk], paragraph)
    else
      (chunks, currentChunk ++ (if currentChunk ≠ "" then "\n\n" else "") ++ paragraph)

/-- Final push of the chunk loop: the running segment is appended when it
is nonempty. -/
def chunkFinish : List String × String → List String
  | (chunks, currentChunk) =>
    if currentChunk ≠ "" then chunks ++ [currentChunk] else chunks

/-- Models chunkContent: a single segment when the content fits, otherwise
the greedy paragraph accumulation over the blank-line split. -/
def chunkContent (content : String) (maxChunkLength : Nat) : List String :=
  if content.length ≤ maxChunkLength then [content]
  else
    chunkFinish ((jsSplitParagraphs content).foldl (chunkLoop maxChunkLength) ([], ""))

/-! ## Excerpt extraction (src/utils.ts, extractRelevantExcerpt) -/

/-- Models extractRelevantExcerpt: sentence split, synonym-expanded
scoring of each sentence by the number of distinct expanded query words it
contains, then a window of the best sentence with up to two sentences of
context on each side, truncated with an ellipsis when too long. -/
def extractRelevantExcerpt (content query : String) (maxLength : Nat) : String :=
  let sentences := jsMatchSentences content
  if sentences.isEmpty then
    content.take maxLength ++ (if maxLength < content.length then "..." else "")
  else
    let queryWords := jsSplitWs (toLowerStr query)
    let expandedQueryWords := expandQueryWords queryWords
    let sentenceScores := sentences.map (fun sentence =>
      (expandedQueryWords.filter
        (fun word => strIncludes (toLowerStr sentence) word)).length)
    let best := sentenceScores.foldl Nat.max 0
    let bestSentenceIndex := sentenceScores.findIdx (fun s => s == best)
    let startIdx := bestSentenceIndex - 2
    let endIdx := Nat.min sentences.length (bestSentenceIndex + 3)
    let excerpt := joinWith " " ((sentences.drop startIdx).take (endIdx - startIdx))
    if maxLength < excerpt.length then excerpt.take (maxLength - 3) ++ "..." else excerpt

/-! ## Keyword search (src/utils.ts, basicKeywordSearch) -/

/-- Characters with syntactic meaning inside a JavaScript regular
expression pattern. -/
def jsRegexSpecials : List Char :=
  ['\\', '^', '$', '.', '|', '?', '*', '+', '(', ')', '[', ']',
   Char.ofNat 123, Char.ofNat 125]

/-- Tests that a pattern consists only of characters a regular expression
treats literally. -/
def jsRegexIsLiteral (s : String) : Bool :=
  s.data.all (fun c => !jsRegexSpecials.contains c)

/-- Models the count of lowerContent.match(new RegExp(keyword, g)). For a
keyword with no regular-expression metacharacter the constructed pattern
matches exactly the non-overlapping literal occurrences, which this
function counts. A keyword containing a metacharacter leaves the literal
fragment: the RegExp constructor may throw at such a keyword (for example
c++ fails with nothing-to-repeat) or match non-literally, so the model
reports no regular result for it. -/
def jsRegexMatchCount (pattern text : String) : Option Nat :=
  if jsRegexIsLiteral pattern then some (countOccurrences pattern text)
  else none

/-- Relevance score of one document in basicKeywordSearch: plus ten per
expanded keyword found in the lowercased title, plus the occurrence count
of the keyword in the lowercased content. -/
def scoreDocument (expandedKeywords : List String)
    (lowerTitle lowerContent : String) : Option Nat :=
  expandedKeywords.foldlM
    (fun score keyword => do
      let score := if strIncludes lowerTitle keyword then score + 10 else score
      let contentMatches ← jsRegexMatchCount keyword lowerContent
      pure (score + contentMatches))
    0

/-- Models basicKeywordSearch: lowercase the query, keep tokens longer
than two characters, expand them through the synonym table, score every
document, discard zero scores, sort descending and truncate. The result
is none when the regular-expression construction of some keyword leaves
the literal fragment, the situation in which the source can throw. -/
def basicKeywordSearch (query : String) (documents : List KnowledgeDocument)
    (maxResults : Nat) : Option (List SearchResult) := do
  let lowerQuery := toLowerStr query
  let keywords := (jsSplitWs lowerQuery).filter (fun k => 2 < k.length)
  let expandedKeywords := expandQueryWords keywords
  let results ← documents.mapM (fun doc => do
    let score ← scoreDocument expandedKeywords (toLowerStr doc.title) (toLowerStr doc.content)
    pure { documentId := doc.id, title := doc.title,
           excerpt := extractRelevantExcerpt doc.content query 300,
           relevanceScore := (score : ℚ) })
  pure ((jsSortBy (fun a b => decide (b.relevanceScore ≤ a.relevanceScore))
          (results.filter (fun r => decide (0 < r.relevanceScore)))).take maxResults)

/-! ## Vector cache (src/utils.ts, generateEmbeddingsForDocuments and
persistKnowledgeBase; src/index.ts, loadKnowledgeBase) -/

/-- Input sent to the embedding service for one document: title, blank
line, then the first eight thousand characters of content. -/
def embedInput (doc : KnowledgeDocument) : String :=
  doc.title ++ "\n\n" ++ doc.content.take 8000

/-- Truthiness of doc.metadata?.embedding: the field must be present (an
array is truthy even when empty). -/
def hasEmbedding (doc : KnowledgeDocument) : Bool :=
  (doc.metadata.bind (fun m => m.embedding)).isSome

/-- Stores an embedding vector in the document metadata, creating the
record when absent. -/
def setEmbedding (doc : KnowledgeDocument) (v : List ℚ) : KnowledgeDocument :=
  { doc with metadata := some { (doc.metadata.getD {}) with embedding := some v } }

/-- Models generateEmbeddingsForDocuments. Batching and the inter-batch
delay only schedule the requests and do not affect the final state, so the
model maps over the documents directly: a document that already carries an
embedding is untouched, one whose embedding call fails is left unchanged,
and the second component lists the inputs requested from the embedding
service, in order. -/
def generateEmbeddingsForDocuments (embed : String → Except String (List ℚ))
    (documents : List KnowledgeDocument) :
    List KnowledgeDocument × List String :=
  ((documents.map (fun doc =>
      if hasEmbedding doc then doc
      else
        match embed (embedInput doc) with
        | .ok v => setEmbedding doc v
        | .error _ => doc)),
   (documents.filter (fun d => !hasEmbedding d)).map embedInput)

/-- Models persistKnowledgeBase: the snapshot object serialized to the
vector-store file, with both collections present. -/
def persistKnowledgeBase (documents : List KnowledgeDocument)
    (vectorStore : List VectorStoreEntry) (timestamp : String) : RawPersisted :=
  { knowledgeBase := some documents, vectorStore := some vectorStore,
    timestamp := timestamp }

/-- Cache branch of loadKnowledgeBase: the parsed snapshot is adopted when
persistedData.vectorStore and persistedData.knowledgeBase are both
present (JavaScript arrays are truthy even when empty). -/
def restorePersisted (raw : Option RawPersisted) :
    Option (List KnowledgeDocument × List VectorStoreEntry) :=
  match raw with
  | none => none
  | some pd =>
    match pd.knowledgeBase, pd.vectorStore with
    | some kb, some vs => some (kb, vs)
    | _, _ => none

/-! ## Ingestion (src/index.ts, loadKnowledgeBase rebuild path) -/

/-- Fields of a JSON source file that override the filename-derived
document defaults. -/
structure JsonDocFields where
  content : Option String := none
  title : Option String := none
  metadata : Option DocMetadata := none
deriving DecidableEq, Repr

/-- Models file.replace of the terminal extension regular expression. -/
def stripDocExt (file : String) : String :=
  if strEnds file ".md" then String.mk (file.data.take (file.length - 3))
  else if strEnds file ".txt" then String.mk (file.data.take (file.length - 4))
  else if strEnds file ".json" then String.mk (file.data.take (file.length - 5))
  else file

/-- Filter applied to the directory listing: markdown, text or JSON files,
excluding the persisted snapshot itself. -/
def contentFileOk (file : String) : Bool :=
  (strEnds file ".md" || strEnds file ".txt" || strEnds file ".json")
    && file != "vector-store.json"

/-- Models the per-file body of loadKnowledgeBase: build the document from
the filename, let a parsable JSON file override content, metadata and
title (empty strings are falsy and keep the default), and chunk documents
longer than ten thousand characters, dropping the oversized original. The
jsonDocParse oracle stands for JSON.parse of the host, returning none when
it throws. -/
def ingestFile (jsonDocParse : String → Option JsonDocFields)
    (file content : String) : List KnowledgeDocument :=
  let doc0 : KnowledgeDocument :=
    { id := file, title := stripDocExt file, content := content, metadata := some {} }
  let doc :=
    if strEnds file ".json" then
      match jsonDocParse content with
      | some f =>
        { doc0 with
          content := match f.content with
            | some c => if c == "" then content else c
            | none => content,
          metadata := some (f.metadata.getD {}),
          title := match f.title with
            | some t => if t == "" then doc0.title else t
            | none => doc0.title }
      | none => doc0
    else doc0
  if 10000 < doc.content.length then
    (chunkContent doc.content 2000).enum.map (fun p =>
      { id := doc.id ++ "-chunk-" ++ toString p.1,
        title := doc.title ++ " - Part " ++ toString (p.1 + 1),
        content := p.2,
        metadata := some { (doc.metadata.getD {}) with
          parentId := some doc.id, chunkIndex := some p.1 } })
  else [doc]

/-- Models the rebuild loop of loadKnowledgeBase over the directory
listing, given as filename-content pairs. -/
def ingestFiles (jsonDocParse : String → Option JsonDocFields)
    (files : List (String × String)) : List KnowledgeDocument :=
  (files.filter (fun f => contentFileOk f.1)).foldl
    (fun kb f => kb ++ ingestFile jsonDocParse f.1 f.2) []

/-- Result of one loadKnowledgeBase run: the two module-level stores, the
inputs sent to the embedding service, and the snapshot written back (none
on the cache path, which writes nothing). -/
structure LoadOutcome where
  knowledgeBase : List KnowledgeDocument
  vectorStore : List VectorStoreEntry
  embedRequests : List String
  persisted : Option RawPersisted
deriving DecidableEq, Repr

/-- Models loadKnowledgeBase: adopt a well-formed persisted snapshot
verbatim, otherwise rebuild from the directory, generate the missing
embeddings, derive the vector store from the documents that carry one and
persist the result. -/
def loadKnowledgeBase (embed : String → Except String (List ℚ))
    (jsonDocParse : String → Option JsonDocFields) (timestamp : String)
    (cacheRaw : Option RawPersisted) (files : List (String × String)) :
    LoadOutcome :=
  match restorePersisted cacheRaw with
  | some kbvs =>
    { knowledgeBase := kbvs.1, vectorStore := kbvs.2,
      embedRequests := [], persisted := none }
  | none =>
    let docs := ingestFiles jsonDocParse files
    let gen := generateEmbeddingsForDocuments embed docs
    let vs := gen.1.filterMap (fun d =>
      (d.metadata.bind (fun m => m.embedding)).map
        (fun e => { documentId := d.id, embedding := e }))
    { knowledgeBase := gen.1, vectorStore := vs, embedRequests := gen.2,
      persisted := some (persistKnowledgeBase gen.1 vs timestamp) }

/-! ## Semantic search (src/index.ts, semanticSearch)

The numeric value of calculateCosineSimilarity is a floating-point
computation on vectors produced by the external embedding service; the
ranking logic of semanticSearch never depends on it, so the similarity
function is an explicit parameter of the model, as is the outcome of the
embedding call for the query. -/

def semanticSearch (sim : List ℚ → List ℚ → ℚ)
    (embedOutcome : Except String (List ℚ)) (query : String)
    (maxResults : Nat) (vectorStore : List VectorStoreEntry)
    (knowledgeBase : List KnowledgeDocument) :
    Except String (List SearchResult) :=
  match embedOutcome with
  | .error e => .error e
  | .ok queryEmbedding =>
    let scoredResults := vectorStore.filterMap (fun entry =>
      match knowledgeBase.find? (fun d => d.id == entry.documentId) with
      | none => none
      | some doc => some
          { documentId := entry.documentId, title := doc.title,
            excerpt := extractRelevantExcerpt doc.content query 300,
            relevanceScore := sim queryEmbedding entry.embedding * 100 })
    .ok ((jsSortBy (fun a b => decide (b.relevanceScore ≤ a.relevanceScore))
          (scoredResults.filter (fun r => decide (20 < r.relevanceScore)))).take
          maxResults)

/-! ## Message conversion (src/types.ts, convertToOpenAIMessage) -/

/-- Models convertToOpenAIMessage: assistant messages keep only role and
content (pending tool-call requests are dropped), and a tool message
without tool_call_id throws. -/
def convertToOpenAIMessage (message : Message) : Except String OpenAIMessage :=
  match message.role with
  | .system => .ok (.system message.content)
  | .user => .ok (.user message.content)
  | .assistant => .ok (.assistant message.content)
  | .tool =>
    match message.tool_call_id with
    | none => .error "Tool messages must have tool_call_id"
    | some id => .ok (.tool message.content id)

/-- Maps a throwing conversion over a list, stopping at the first
exception, as Array.prototype.map does when the callback throws. -/
def exceptMap (f : α → Except ε β) : List α → Except ε (List β)
  | [] => .ok []
  | a :: t =>
    match f a with
    | .error e => .error e
    | .ok b =>
      match exceptMap f t with
      | .error e => .error e
      | .ok r => .ok (b :: r)

/-- Conversion of a whole message list for a completion request. -/
def convertAll (messages : List Message) : Except String (List OpenAIMessage) :=
  exceptMap convertToOpenAIMessage messages

/-! ## Tool registry and dispatcher (src/index.ts, callFunction) -/

/-- Dispatcher oracle: the behaviour of the six registered handlers
(knowledge search, document lookup and the four calendar operations),
taking the function name and the parsed argument payload and returning
the serialized handler response or the thrown error message. -/
def HandlerImpl : Type := String → String → Except String String

/-- Models callFunction: route a registered name to its handler and throw
for an unregistered name. -/
def callFunction (impl : HandlerImpl) (functionName : String)
    (args : String) : Except String String :=
  match functionName with
  | "searchKnowledgeBase" => impl functionName args
  | "getDocumentContent" => impl functionName args
  | "checkAvailability" => impl functionName args
  | "createAppointment" => impl functionName args
  | "cancelAppointment" => impl functionName args
  | "listUpcomingAppointments" => impl functionName args
  | _ => .error ("Function " ++ functionName ++ " not implemented")

/-! ## Conversation orchestrator (src/index.ts, chatWithBot) -/

/-- System prompt of the orchestrator, verbatim from the source. -/
def systemPrompt : String :=
  "Eres un asistente de programación útil que gestiona reservas y crea citas en Google Calendar.\n\nPropósito: Ayudar a los usuarios a programar citas, hacer reservas y gestionar su calendario.\n\nDirectrices:\n- Mantener un tono profesional, amigable y eficiente\n- Recopilar toda la información necesaria antes de crear citas (fecha, hora, duración, propósito)\n- Verificar la disponibilidad del horario antes de confirmar citas\n- Proporcionar detalles claros de confirmación después de programar\n- Ayudar a los usuarios a reprogramar o cancelar citas cuando sea necesario\n- Sugerir horarios alternativos cuando los espacios solicitados no estén disponibles\n- Al responder preguntas, utilizar la base de conocimientos para proporcionar información precisa\n\nConocimientos:\n- Puedes verificar la disponibilidad del calendario\n- Puedes crear, modificar y cancelar eventos del calendario\n- Entiendes las convenciones de programación y zonas horarias\n- Tienes acceso a una base de conocimientos con políticas, procedimientos y preguntas frecuentes\n\nFormato de respuesta:\n- Sé conciso pero completo\n- Para solicitudes de programación, confirma todos los detalles\n- Para consultas de calendario, presenta la información claramente\n- Siempre confirma las operaciones exitosas del calendario\n- Cuando hagas referencia a información de la base de conocimientos, cita el documento fuente\n\nRecuerda verificar todos los detalles de programación y proporcionar números de confirmación para las citas."

/-- Fixed apology returned when the turn fails. -/
def apologyText : String := "Sorry, I encountered an error processing your request."

/-- Keywords of the question-indicating regular expression. -/
def questionKeywords : List String :=
  ["what", "how", "when", "where", "why", "can", "do", "is", "are",
   "policy", "policies", "appointment", "schedule"]

/-- Models the informational-request test: the message contains a question
mark, or matches the case-insensitive keyword alternation. -/
def looksInformational (userMessage : String) : Bool :=
  strIncludes userMessage "?"
    || questionKeywords.any (fun k => strIncludes (toLowerStr userMessage) k)

/-- Oracle for one conversational turn: similarity function, outcome of
the embedding call for the user message, JSON.parse of tool-call argument
strings (none models a thrown SyntaxError, and the payload handed to the
handlers is kept as an opaque string), handler behaviour, and the two
completion requests as functions of the request message list. -/
structure TurnEnv where
  sim : List ℚ → List ℚ → ℚ
  embedQuery : Except String (List ℚ)
  jsonParse : String → Option String
  impl : HandlerImpl
  firstCompletion : List OpenAIMessage → Except String AssistantTurn
  secondCompletion : List OpenAIMessage → Except String (Option String)

/-- Per-result addendum line: chunks are attributed to their parent
document when it resolves (an empty parentId is falsy and is treated as
absent). -/
def docInfoLine (knowledgeBase : List KnowledgeDocument)
    (doc : KnowledgeDocument) : String :=
  let own := "From \"" ++ doc.title ++ "\":\n" ++ doc.content ++ "\n\n"
  match doc.metadata.bind (fun m => m.parentId) with
  | none => own
  | some pid =>
    if pid == "" then own
    else
      match knowledgeBase.find? (fun d => d.id == pid) with
      | some parentDoc => "From \"" ++ parentDoc.title ++ "\":\n" ++ doc.content ++ "\n\n"
      | none => own

/-- Addendum built from the proactive search results: the header plus one
line per result whose document resolves; empty when there are no
results. -/
def relevantInfoFor (knowledgeBase : List KnowledgeDocument)
    (searchResults : List SearchResult) : String :=
  if 0 < searchResults.length then
    searchResults.foldl
      (fun acc result =>
        match knowledgeBase.find? (fun d => d.id == result.documentId) with
        | some doc => acc ++ docInfoLine knowledgeBase doc
        | none => acc)
      "Based on our knowledge base, here is some relevant information:\n\n"
  else ""

/-- Proactive retrieval step of chatWithBot: run only for informational
messages, with any retrieval failure absorbed and the turn proceeding
without augmentation. -/
def proactiveInfo (env : TurnEnv) (knowledgeBase : List KnowledgeDocument)
    (vectorStore : List VectorStoreEntry) (userMessage : String) : String :=
  if looksInformational userMessage then
    match semanticSearch env.sim env.embedQuery userMessage 3 vectorStore knowledgeBase with
    | .error _ => ""
    | .ok searchResults => relevantInfoFor knowledgeBase searchResults
  else ""

/-- System prompt enhanced with the retrieved knowledge when any was
found. -/
def enhancedSystemPrompt (relevantInfo : String) : String :=
  if relevantInfo == "" then systemPrompt
  else systemPrompt ++ "\n\nRELEVANT KNOWLEDGE:\n" ++ relevantInfo

/-- Models history.slice(-10). -/
def sliceLast (n : Nat) (l : List α) : List α := l.drop (l.length - n)

def mkSystemMessage (content : String) : Message :=
  { role := .system, content := content }

def mkUserMessage (content : String) : Message :=
  { role := .user, content := content }

def mkAssistantMessage (content : String) : Message :=
  { role := .assistant, content := content }

/-- Assistant message re-pushed with its pending tool-call requests. -/
def mkAssistantToolCalls (content : String) (toolCalls : List ToolCall) : Message :=
  { role := .assistant, content := content, tool_calls := some toolCalls }

def mkToolMessage (tool_call_id content : String) : Message :=
  { role := .tool, content := content, tool_call_id := some tool_call_id }

/-- Message list assembled before the first completion request: enhanced
system prompt, the last ten history messages, then the user message. -/
def baseMessages (env : TurnEnv) (knowledgeBase : List KnowledgeDocument)
    (vectorStore : List VectorStoreEntry) (userMessage : String)
    (conversationHistory : List Message) : List Message :=
  mkSystemMessage
      (enhancedSystemPrompt (proactiveInfo env knowledgeBase vectorStore userMessage))
    :: (sliceLast 10 conversationHistory ++ [mkUserMessage userMessage])

/-- Models JSON.stringify of a string value, escaping quotes and
backslashes (the error messages involved contain no control
characters). -/
def jsonEscape (s : String) : String :=
  String.mk (s.data.foldr
    (fun c acc => if c == '"' || c == '\\' then '\\' :: c :: acc else c :: acc) [])

/-- Models JSON.stringify of the structured error payload built in the
catch branch of the tool loop. -/
def jsonErrorString (msg : String) : String :=
  "\x7b\"error\":\"" ++ jsonEscape msg ++ "\"\x7d"

/-- One iteration of the tool-call loop: JSON.parse of the argument string
stands outside the try block, so its failure escapes; a handler failure is
caught and becomes a structured error payload in an ordinary tool
message. -/
def toolResultMessage (env : TurnEnv) (toolCall : ToolCall) : Except String Message :=
  match env.jsonParse toolCall.function.arguments with
  | none => .error ("Unexpected token in JSON: " ++ toolCall.function.arguments)
  | some functionArgs =>
    match callFunction env.impl toolCall.function.name functionArgs with
    | .ok functionResponse => .ok (mkToolMessage toolCall.id functionResponse)
    | .error e => .ok (mkToolMessage toolCall.id (jsonErrorString e))

/-- Tool-call loop over the requested calls, in issue order. -/
def runToolLoop (env : TurnEnv) (toolCalls : List ToolCall) :
    Except String (List Message) :=
  exceptMap (toolResultMessage env) toolCalls

/-- Live message list at the moment of the second completion request: the
base list, the assistant reply pushed once without and once with its
tool-call requests, then one tool message per call. -/
def liveMessages (base : List Message) (content : String)
    (toolCalls : List ToolCall) (toolMessages : List Message) : List Message :=
  base ++ [mkAssistantMessage content, mkAssistantToolCalls content toolCalls]
    ++ toolMessages

/-- Body of chatWithBot inside its try block; every .error outcome is an
exception reaching the surrounding catch. -/
def chatTurnBody (env : TurnEnv) (knowledgeBase : List KnowledgeDocument)
    (vectorStore : List VectorStoreEntry) (userMessage : String)
    (conversationHistory : List Message) : Except String ChatResponse :=
  match convertAll (baseMessages env knowledgeBase vectorStore userMessage conversationHistory) with
  | .error e => .error e
  | .ok openAIMessages =>
    match env.firstCompletion openAIMessages with
    | .error e => .error e
    | .ok responseMessage =>
      match responseMessage.tool_calls with
      | none =>
        .ok { response := responseMessage.content.getD "",
              updatedHistory := conversationHistory
                ++ [mkUserMessage userMessage,
                    mkAssistantMessage (responseMessage.content.getD "")] }
      | some toolCalls =>
        match runToolLoop env toolCalls with
        | .error e => .error e
        | .ok toolMessages =>
          match convertAll (liveMessages
              (baseMessages env knowledgeBase vectorStore userMessage conversationHistory)
              (responseMessage.content.getD "") toolCalls toolMessages) with
          | .error e => .error e
          | .ok payload =>
            match env.secondCompletion payload with
            | .error e => .error e
            | .ok secondContent =>
              .ok { response := secondContent.getD "",
                    updatedHistory := conversationHistory
                      ++ [mkUserMessage userMessage,
                          mkAssistantMessage (secondContent.getD "")] }

/-- Models chatWithBot: the try body, with the catch branch returning the
fixed apology and the unmodified prior history. -/
def chatWithBot (env : TurnEnv) (knowledgeBase : List KnowledgeDocument)
    (vectorStore : List VectorStoreEntry) (userMessage : String)
    (conversationHistory : List Message) : ChatResponse :=
  match chatTurnBody env knowledgeBase vectorStore userMessage conversationHistory with
  | .ok r => r
  | .error _ => { response := apologyText, updatedHistory := conversationHistory }

/-- Message list handed to the second completion request, when the turn
reaches it: mirrors the prefix of chatTurnBody up to that request. -/
def secondRequestMessages (env : TurnEnv) (knowledgeBase : List KnowledgeDocument)
    (vectorStore : List VectorStoreEntry) (userMessage : String)
    (conversationHistory : List Message) : Option (List Message) :=
  match convertAll (baseMessages env knowledgeBase vectorStore userMessage conversationHistory) with
  | .error _ => none
  | .ok openAIMessages =>
    match env.firstCompletion openAIMessages with
    | .error _ => none
    | .ok responseMessage =>
      match responseMessage.tool_calls with
      | none => none
      | some toolCalls =>
        match runToolLoop env toolCalls with
        | .error _ => none
        | .ok toolMessages =>
          some (liveMessages
            (baseMessages env knowledgeBase vectorStore userMessage conversationHistory)
            (responseMessage.content.getD "") toolCalls toolMessages)

/-! ## Supporting lemmas -/

theorem exceptMap_ok_append {f : α → Except ε β} {l₁ l₂ : List α}
    {r₁ r₂ : List β} (h₁ : exceptMap f l₁ = .ok r₁)
    (h₂ : exceptMap f l₂ = .ok r₂) :
    exceptMap f (l₁ ++ l₂) = .ok (r₁ ++ r₂) := by
  induction l₁ generalizing r₁ with
  | nil =>
    simp only [exceptMap] at h₁
    cases h₁
    simpa using h₂
  | cons a t ih =>
    rw [List.cons_append]
    simp only [exceptMap] at h₁ ⊢
    cases hfa : f a with
    | error e => rw [hfa] at h₁; cases h₁
    | ok b =>
      rw [hfa] at h₁
      cases hrest : exceptMap f t with
      | error e => rw [hrest] at h₁; cases h₁
      | ok rt =>
        rw [hrest] at h₁
        cases h₁
        rw [ih hrest]
        rfl

theorem exceptMap_error_of_mem {f : α → Except ε β} {l : List α} {a : α}
    {e : ε} (ha : a ∈ l) (hfa : f a = .error e) :
    ∃ d, exceptMap f l = .error d := by
  induction l with
  | nil => cases ha
  | cons x t ih =>
    rcases List.mem_cons.mp ha with rfl | ha
    · exact ⟨e, by simp [exceptMap, hfa]⟩
    · cases hfx : f x with
      | error d => exact ⟨d, by simp [exceptMap, hfx]⟩
      | ok b =>
        obtain ⟨d, hd⟩ := ih ha
        exact ⟨d, by simp [exceptMap, hfx, hd]⟩

theorem exceptMap_ok_of_forall {f : α → Except ε β} {l : List α}
    (h : ∀ a ∈ l, ∃ b, f a = .ok b) :
    ∃ r, exceptMap f l = .ok r ∧ r.length = l.length
      ∧ ∀ p ∈ l.zip r, f p.1 = .ok p.2 := by
  induction l with
  | nil => exact ⟨[], rfl, rfl, by simp⟩
  | cons a t ih =>
    obtain ⟨b, hb⟩ := h a (List.mem_cons_self a t)
    obtain ⟨r, hr, hlen, hzip⟩ := ih (fun x hx => h x (List.mem_cons_of_mem a hx))
    refine ⟨b :: r, by simp [exceptMap, hb, hr], by simp [hlen], ?_⟩
    intro p hp
    rcases List.mem_cons.mp hp with rfl | hp
    · exact hb
    · exact hzip p hp

/-- Well-formedness of a message for conversion: a tool message must carry
its call identifier. -/
def msgOk (m : Message) : Prop := m.role = .tool → m.tool_call_id.isSome

theorem convert_ok_of_msgOk {m : Message} (h : msgOk m) :
    ∃ o, convertToOpenAIMessage m = .ok o := by
  unfold convertToOpenAIMessage
  cases hrole : m.role with
  | system => exact ⟨_, rfl⟩
  | user => exact ⟨_, rfl⟩
  | assistant => exact ⟨_, rfl⟩
  | tool =>
    have := h hrole
    cases hid : m.tool_call_id with
    | none => rw [hid] at this; cases this
    | some i => exact ⟨_, rfl⟩

theorem convertAll_ok {l : List Message} (h : ∀ m ∈ l, msgOk m) :
    ∃ r, convertAll l = .ok r := by
  obtain ⟨r, hr, -⟩ := exceptMap_ok_of_forall (fun m hm => convert_ok_of_msgOk (h m hm))
  exact ⟨r, hr⟩

theorem baseMessages_msgOk (env : TurnEnv) (kb : List KnowledgeDocument)
    (vs : List VectorStoreEntry) (msg : String) {hist : List Message}
    (hHist : ∀ m ∈ hist, msgOk m) :
    ∀ m ∈ baseMessages env kb vs msg hist, msgOk m := by
  intro m hm
  unfold baseMessages at hm
  rcases List.mem_cons.mp hm with rfl | hm
  · intro h; cases h
  · rcases List.mem_append.mp hm with hm | hm
    · exact hHist m (List.mem_of_mem_drop hm)
    · rcases List.mem_singleton.mp hm with rfl
      intro h; cases h

/-- Message a loop iteration pushes once the arguments have parsed: the
handler result, or the structured error payload when the handler throws. -/
def toolOutcomeMessage (env : TurnEnv) (args : String) (toolCall : ToolCall) : Message :=
  match callFunction env.impl toolCall.function.name args with
  | .ok functionResponse => mkToolMessage toolCall.id functionResponse
  | .error e => mkToolMessage toolCall.id (jsonErrorString e)

theorem toolResultMessage_ok {env : TurnEnv} {toolCall : ToolCall} {args : String}
    (h : env.jsonParse toolCall.function.arguments = some args) :
    toolResultMessage env toolCall = .ok (toolOutcomeMessage env args toolCall) := by
  unfold toolResultMessage toolOutcomeMessage
  rw [h]
  cases hc : callFunction env.impl toolCall.function.name args <;> simp [hc]

theorem msgOk_toolOutcome (env : TurnEnv) (args : String) (toolCall : ToolCall) :
    msgOk (toolOutcomeMessage env args toolCall)
      ∧ (toolOutcomeMessage env args toolCall).role = .tool
      ∧ (toolOutcomeMessage env args toolCall).tool_call_id = some toolCall.id := by
  unfold toolOutcomeMessage
  cases hc : callFunction env.impl toolCall.function.name args <;>
    exact ⟨fun _ => rfl, rfl, rfl⟩

theorem runToolLoop_ok {env : TurnEnv} {toolCalls : List ToolCall}
    (hParse : ∀ tc ∈ toolCalls, (env.jsonParse tc.function.arguments).isSome) :
    ∃ toolMessages, runToolLoop env toolCalls = .ok toolMessages
      ∧ toolMessages.length = toolCalls.length
      ∧ (∀ p ∈ toolCalls.zip toolMessages, ∀ args,
          env.jsonParse p.1.function.arguments = some args →
          p.2 = toolOutcomeMessage env args p.1)
      ∧ (∀ m ∈ toolMessages, msgOk m) := by
  induction toolCalls with
  | nil => exact ⟨[], rfl, rfl, by simp, by simp⟩
  | cons tc t ih =>
    obtain ⟨args, hargs⟩ := Option.isSome_iff_exists.mp
      (hParse tc (List.mem_cons_self tc t))
    obtain ⟨msgs, hmsgs, hlen, hzip, hok⟩ :=
      ih (fun x hx => hParse x (List.mem_cons_of_mem tc hx))
    refine ⟨toolOutcomeMessage env args tc :: msgs, ?_, by simp [hlen], ?_, ?_⟩
    · unfold runToolLoop at hmsgs ⊢
      simp [exceptMap, toolResultMessage_ok hargs, hmsgs]
    · intro p hp
      rcases List.mem_cons.mp hp with rfl | hp
      · intro a ha
        rw [hargs] at ha
        cases ha
        rfl
      · exact hzip p hp
    · intro m hm
      rcases List.mem_cons.mp hm with rfl | hm
      · exact (msgOk_toolOutcome env args tc).1
      · exact hok m hm

theorem except_cases (x : Except ε α) : (∃ e, x = .error e) ∨ ∃ a, x = .ok a := by
  cases x
  · exact Or.inl ⟨_, rfl⟩
  · exact Or.inr ⟨_, rfl⟩

theorem chatWithBot_of_body_ok {env : TurnEnv} {kb : List KnowledgeDocument}
    {vs : List VectorStoreEntry} {msg : String} {hist : List Message}
    {r : ChatResponse} (h : chatTurnBody env kb vs msg hist = .ok r) :
    chatWithBot env kb vs msg hist = r := by
  unfold chatWithBot
  rw [h]

theorem chatWithBot_of_body_error {env : TurnEnv} {kb : List KnowledgeDocument}
    {vs : List VectorStoreEntry} {msg : String} {hist : List Message}
    {e : String} (h : chatTurnBody env kb vs msg hist = .error e) :
    chatWithBot env kb vs msg hist =
      { response := apologyText, updatedHistory := hist } := by
  unfold chatWithBot
  rw [h]

theorem chatTurnBody_no_tools {env : TurnEnv} {kb : List KnowledgeDocument}
    {vs : List VectorStoreEntry} {msg : String} {hist : List Message}
    {oa : List OpenAIMessage} {a : AssistantTurn}
    (hBase : convertAll (baseMessages env kb vs msg hist) = .ok oa)
    (hFirst : env.firstCompletion oa = .ok a)
    (hNone : a.tool_calls = none) :
    chatTurnBody env kb vs msg hist =
      .ok { response := a.content.getD "",
            updatedHistory := hist
              ++ [mkUserMessage msg, mkAssistantMessage (a.content.getD "")] } := by
  unfold chatTurnBody
  simp only [hBase, hFirst, hNone]

theorem chatTurnBody_tools {env : TurnEnv} {kb : List KnowledgeDocument}
    {vs : List VectorStoreEntry} {msg : String} {hist : List Message}
    {oa payload : List OpenAIMessage} {a : AssistantTurn}
    {toolCalls : List ToolCall} {toolMessages : List Message} {c : Option String}
    (hBase : convertAll (baseMessages env kb vs msg hist) = .ok oa)
    (hFirst : env.firstCompletion oa = .ok a)
    (hCalls : a.tool_calls = some toolCalls)
    (hLoop : runToolLoop env toolCalls = .ok toolMessages)
    (hConv2 : convertAll (liveMessages (baseMessages env kb vs msg hist)
        (a.content.getD "") toolCalls toolMessages) = .ok payload)
    (hSecond : env.secondCompletion payload = .ok c) :
    chatTurnBody env kb vs msg hist =
      .ok { response := c.getD "",
            updatedHistory := hist
              ++ [mkUserMessage msg, mkAssistantMessage (c.getD "")] } := by
  unfold chatTurnBody
  simp only [hBase, hFirst, hCalls, hLoop, hConv2, hSecond]

theorem convertAll_live_ok (content : String) (toolCalls : List ToolCall)
    {base toolMessages : List Message} {oa : List OpenAIMessage}
    (hBase : convertAll base = .ok oa)
    (hTool : ∀ m ∈ toolMessages, msgOk m) :
    ∃ payload, convertAll (liveMessages base content toolCalls toolMessages) = .ok payload := by
  obtain ⟨rt, hrt⟩ := convertAll_ok hTool
  have hmid : convertAll [mkAssistantMessage content,
      mkAssistantToolCalls content toolCalls] =
      .ok [.assistant content, .assistant content] := rfl
  exact ⟨_, exceptMap_ok_append (exceptMap_ok_append hBase hmid) hrt⟩


/-! ## String length and join lemmas -/

theorem str_ne_empty_of_pos {s : String} (h : 0 < s.length) : s ≠ "" := by
  intro he
  rw [he] at h
  exact absurd h (by decide)

theorem str_pos_of_ne_empty {s : String} (h : s ≠ "") : 0 < s.length := by
  cases s with
  | mk data =>
    cases data with
    | nil => exact absurd rfl h
    | cons c t => simp [String.length]

theorem joinWith_ne_empty {sep : String} {l : List String} (hl : l ≠ [])
    (hx : ∀ x ∈ l, x ≠ "") : joinWith sep l ≠ "" := by
  match l with
  | [x] => exact hx x (List.mem_singleton_self x)
  | x :: y :: t =>
    apply str_ne_empty_of_pos
    have hxpos : 0 < x.length := str_pos_of_ne_empty (hx x (List.mem_cons_self x _))
    have : (x ++ sep ++ joinWith sep (y :: t)).length
        = x.length + sep.length + (joinWith sep (y :: t)).length := by
      simp [String.length_append]
    show 0 < (x ++ sep ++ joinWith sep (y :: t)).length
    omega

theorem joinWith_append_singleton {sep x : String} {l : List String}
    (hl : l ≠ []) : joinWith sep (l ++ [x]) = joinWith sep l ++ sep ++ x := by
  match l with
  | [y] => rfl
  | y :: z :: t =>
    have ih := @joinWith_append_singleton sep x (z :: t) (List.cons_ne_nil z t)
    show y ++ sep ++ joinWith sep ((z :: t) ++ [x]) = _
    rw [ih]
    simp [String.append_assoc, joinWith]

theorem joinWith_append {sep : String} {l₁ l₂ : List String} (h₁ : l₁ ≠ [])
    (h₂ : l₂ ≠ []) :
    joinWith sep (l₁ ++ l₂) = joinWith sep l₁ ++ sep ++ joinWith sep l₂ := by
  match l₁ with
  | [x] =>
    match l₂ with
    | z :: t => rfl
  | x :: y :: t =>
    have ih := @joinWith_append sep (y :: t) l₂ (List.cons_ne_nil y t) h₂
    show x ++ sep ++ joinWith sep ((y :: t) ++ l₂) = _
    rw [ih]
    simp [String.append_assoc, joinWith]

theorem flatten_ne_nil_of_head {g : List α} {t : List (List α)} (hg : g ≠ []) :
    (g :: t).flatten ≠ [] := by
  simp only [List.flatten_cons]
  intro h
  exact hg (List.append_eq_nil.mp h).1

theorem joinWith_map_flatten {sep : String} {G : List (List String)}
    (hG : ∀ g ∈ G, g ≠ []) :
    joinWith sep (G.map (joinWith sep)) = joinWith sep G.flatten := by
  match G with
  | [] => rfl
  | [g] => simp [joinWith]
  | g :: g2 :: t =>
    have ih := @joinWith_map_flatten sep (g2 :: t)
      (fun x hx => hG x (List.mem_cons_of_mem g hx))
    show joinWith sep (joinWith sep g :: (g2 :: t).map (joinWith sep)) = _
    have h1 : joinWith sep (joinWith sep g :: (g2 :: t).map (joinWith sep))
        = joinWith sep g ++ sep ++ joinWith sep ((g2 :: t).map (joinWith sep)) := rfl
    rw [h1, ih,
      show (g :: g2 :: t).flatten = g ++ (g2 :: t).flatten from List.flatten_cons,
      joinWith_append (hG g (List.mem_cons_self g _))
        (flatten_ne_nil_of_head
          (hG g2 (List.mem_cons_of_mem g (List.mem_cons_self g2 t))))]

/-! ## Chunk loop invariants -/

theorem chunk_chunks_bound (m : Nat) (paras : List String) :
    ∀ ps : List String, (∀ p ∈ ps, p ∈ paras) →
    ∀ (chunks : List String) (cur : String),
    (∀ s ∈ chunks, s.length ≤ m + 2 ∨ s ∈ paras) →
    (cur = "" ∨ cur.length ≤ m + 2 ∨ cur ∈ paras) →
    (∀ s ∈ (ps.foldl (chunkLoop m) (chunks, cur)).1, s.length ≤ m + 2 ∨ s ∈ paras)
      ∧ ((ps.foldl (chunkLoop m) (chunks, cur)).2 = ""
         ∨ (ps.foldl (chunkLoop m) (chunks, cur)).2.length ≤ m + 2
         ∨ (ps.foldl (chunkLoop m) (chunks, cur)).2 ∈ paras) := by
  intro ps
  induction ps with
  | nil =>
    intro _ chunks cur hch hcur
    exact ⟨hch, hcur⟩
  | cons p t ih =>
    intro hmem chunks cur hch hcur
    rw [List.foldl_cons]
    by_cases hcond : m < (cur ++ p).length ∧ 0 < cur.length
    · have hstep : chunkLoop m (chunks, cur) p = (chunks ++ [cur], p) := by
        show (if m < (cur ++ p).length ∧ 0 < cur.length then _ else _) = _
        rw [if_pos hcond]
      rw [hstep]
      refine ih (fun q hq => hmem q (List.mem_cons_of_mem p hq)) _ _ ?_ ?_
      · intro s hs
        rcases List.mem_append.mp hs with hs | hs
        · exact hch s hs
        · rcases List.mem_singleton.mp hs with rfl
          rcases hcur with rfl | h
          · exact absurd hcond.2 (by decide)
          · exact h
      · exact Or.inr (Or.inr (hmem p (List.mem_cons_self p t)))
    · have hstep : chunkLoop m (chunks, cur) p =
          (chunks, cur ++ (if cur ≠ "" then "\n\n" else "") ++ p) := by
        show (if m < (cur ++ p).length ∧ 0 < cur.length then _ else _) = _
        rw [if_neg hcond]
      rw [hstep]
      refine ih (fun q hq => hmem q (List.mem_cons_of_mem p hq)) _ _ hch ?_
      by_cases hc : cur = ""
      · subst hc
        have hred : (("" : String) ++ (if ("" : String) ≠ "" then "\n\n" else "") ++ p) = p := rfl
        rw [hred]
        exact Or.inr (Or.inr (hmem p (List.mem_cons_self p t)))
      · have hlenp : 0 < cur.length := str_pos_of_ne_empty hc
        have hle : (cur ++ p).length ≤ m := by
          rcases Nat.lt_or_ge m (cur ++ p).length with h | h
          · exact absurd ⟨h, hlenp⟩ hcond
          · exact h
        rw [if_pos hc]
        refine Or.inr (Or.inl ?_)
        rw [String.length_append] at hle
        have h2 : ("\n\n" : String).length = 2 := by decide
        have : (cur ++ "\n\n" ++ p).length = cur.length + 2 + p.length := by
          simp [String.length_append, h2]
        omega

theorem splitParasGo_ne_nil : ∀ fuel cs acc, splitParasGo fuel cs acc ≠ [] := by
  intro fuel
  induction fuel with
  | zero =>
    intro cs acc
    cases cs <;> simp [splitParasGo]
  | succ f ih =>
    intro cs acc
    cases cs with
    | nil => simp [splitParasGo]
    | cons c t =>
      simp only [splitParasGo]
      split
      · simp
      · exact ih _ _

theorem jsSplitParagraphs_ne_nil (s : String) : jsSplitParagraphs s ≠ [] := by
  unfold jsSplitParagraphs
  intro h
  exact splitParasGo_ne_nil _ _ _ (List.map_eq_nil_iff.mp h)

theorem chunk_grouping (m : Nat) :
    ∀ ps : List String, (∀ p ∈ ps, p ≠ "") →
    ∀ (groups : List (List String)) (gcur : List String),
    (∀ g ∈ groups, g ≠ [] ∧ ∀ x ∈ g, x ≠ "") →
    gcur ≠ [] → (∀ x ∈ gcur, x ≠ "") →
    ∃ (groups2 : List (List String)) (gcur2 : List String),
      ps.foldl (chunkLoop m) (groups.map (joinWith "\n\n"), joinWith "\n\n" gcur)
          = (groups2.map (joinWith "\n\n"), joinWith "\n\n" gcur2)
        ∧ groups2.flatten ++ gcur2 = groups.flatten ++ gcur ++ ps
        ∧ (∀ g ∈ groups2, g ≠ [] ∧ ∀ x ∈ g, x ≠ "")
        ∧ gcur2 ≠ [] ∧ (∀ x ∈ gcur2, x ≠ "") := by
  intro ps
  induction ps with
  | nil =>
    intro _ groups gcur hgroups hgcur hgne
    exact ⟨groups, gcur, rfl, by simp, hgroups, hgcur, hgne⟩
  | cons p t ih =>
    intro hps groups gcur hgroups hgcur hgne
    have hp : p ≠ "" := hps p (List.mem_cons_self p t)
    have hjwne : joinWith "\n\n" gcur ≠ "" := joinWith_ne_empty hgcur hgne
    rw [List.foldl_cons]
    by_cases hcond : m < (joinWith "\n\n" gcur ++ p).length
        ∧ 0 < (joinWith "\n\n" gcur).length
    · have hstep : chunkLoop m (groups.map (joinWith "\n\n"), joinWith "\n\n" gcur) p
          = ((groups ++ [gcur]).map (joinWith "\n\n"), joinWith "\n\n" [p]) := by
        show (if m < (joinWith "\n\n" gcur ++ p).length
            ∧ 0 < (joinWith "\n\n" gcur).length then _ else _) = _
        rw [if_pos hcond]
        simp [joinWith]
      rw [hstep]
      obtain ⟨G2, gc2, hfold, hflat, hG2, hgc2, hgc2ne⟩ :=
        ih (fun q hq => hps q (List.mem_cons_of_mem p hq)) (groups ++ [gcur]) [p]
          (by
            intro g hg
            rcases List.mem_append.mp hg with hg | hg
            · exact hgroups g hg
            · rcases List.mem_singleton.mp hg with rfl
              exact ⟨hgcur, hgne⟩)
          (List.cons_ne_nil p [])
          (by
            intro x hx
            rcases List.mem_singleton.mp hx with rfl
            exact hp)
      refine ⟨G2, gc2, hfold, ?_, hG2, hgc2, hgc2ne⟩
      rw [hflat]
      simp [List.flatten_append, List.append_assoc]
    · have hstep : chunkLoop m (groups.map (joinWith "\n\n"), joinWith "\n\n" gcur) p
          = (groups.map (joinWith "\n\n"), joinWith "\n\n" (gcur ++ [p])) := by
        show (if m < (joinWith "\n\n" gcur ++ p).length
            ∧ 0 < (joinWith "\n\n" gcur).length then _ else _) = _
        rw [if_neg hcond, if_pos hjwne, joinWith_append_singleton hgcur]
      rw [hstep]
      obtain ⟨G2, gc2, hfold, hflat, hG2, hgc2, hgc2ne⟩ :=
        ih (fun q hq => hps q (List.mem_cons_of_mem p hq)) groups (gcur ++ [p])
          hgroups
          (by simp)
          (by
            intro x hx
            rcases List.mem_append.mp hx with hx | hx
            · exact hgne x hx
            · rcases List.mem_singleton.mp hx with rfl
              exact hp)
      refine ⟨G2, gc2, hfold, ?_, hG2, hgc2, hgc2ne⟩
      rw [hflat]
      simp [List.append_assoc]

/-! ## Claims C6 and C7: the chunker -/

/-- C6 (amended): every segment returned by chunkContent either is a
single paragraph of the blank-line split (emitted whole, however long) or
has length at most maxChunkLength plus two: the greedy check compares the
running segment and the paragraph without the two-character separator the
else branch actually inserts, so an accumulated segment may exceed the
bound by up to two characters. -/
theorem c6_amended_chunk_bound (c : String) (m : Nat) (s : String)
    (hs : s ∈ chunkContent c m) :
    s.length ≤ m + 2 ∨ s ∈ jsSplitParagraphs c := by
  unfold chunkContent at hs
  by_cases hle : c.length ≤ m
  · rw [if_pos hle] at hs
    rcases List.mem_singleton.mp hs with rfl
    exact Or.inl (le_trans hle (Nat.le_add_right m 2))
  · rw [if_neg hle] at hs
    obtain ⟨hch, hcur⟩ := chunk_chunks_bound m (jsSplitParagraphs c)
      (jsSplitParagraphs c) (fun p hp => hp) [] "" (by simp) (Or.inl rfl)
    cases hfold : (jsSplitParagraphs c).foldl (chunkLoop m) ([], "") with
    | mk chunks cur =>
      rw [hfold] at hs hch hcur
      simp only at hch hcur
      simp only [chunkFinish] at hs
      by_cases hcne : cur ≠ ""
      · rw [if_pos hcne] at hs
        rcases List.mem_append.mp hs with hs | hs
        · exact hch s hs
        · rcases List.mem_singleton.mp hs with rfl
          rcases hcur with rfl | h
          · exact absurd rfl hcne
          · exact h
      · rw [if_neg hcne] at hs
        exact hch s hs

/-- C6 counterexample: with maximum segment length ten, the content made
of two five-character paragraphs is returned as one twelve-character
segment, which is not a single paragraph of the split. The claim that
every accumulated segment stays within the requested bound is therefore
false: the length check ignores the two separator characters. -/
theorem c6_counterexample :
    "aaaaa\n\nbbbbb" ∈ chunkContent "aaaaa\n\nbbbbb" 10
      ∧ 10 < ("aaaaa\n\nbbbbb" : String).length
      ∧ "aaaaa\n\nbbbbb" ∉ jsSplitParagraphs "aaaaa\n\nbbbbb" := by decide

theorem c6_witness :
    ("aaaaa\n\nbbbbb" : String).length ≤ 10 + 2
      ∨ "aaaaa\n\nbbbbb" ∈ jsSplitParagraphs "aaaaa\n\nbbbbb" :=
  c6_amended_chunk_bound "aaaaa\n\nbbbbb" 10 "aaaaa\n\nbbbbb" (by decide)

/-- C7 (amended): chunkContent returns the content as a single segment
when it fits. When every paragraph separator of the content is exactly one
blank line (so that rejoining the split reproduces the content) and no
paragraph is empty, joining the returned segments with the blank-line
separator reproduces the content exactly, and the segments partition the
paragraph list into consecutive nonempty groups, so no segment boundary
falls inside a paragraph. For other separators the split discards their
text and rejoining cannot restore it. -/
theorem c7_amended_roundtrip :
    (∀ (c : String) (m : Nat), c.length ≤ m → chunkContent c m = [c])
    ∧ (∀ (c : String) (m : Nat),
        (∀ p ∈ jsSplitParagraphs c, p ≠ "") →
        joinWith "\n\n" (jsSplitParagraphs c) = c →
        joinWith "\n\n" (chunkContent c m) = c
        ∧ ∃ groups : List (List String),
            groups.flatten = jsSplitParagraphs c
            ∧ (∀ g ∈ groups, g ≠ [])
            ∧ chunkContent c m = groups.map (joinWith "\n\n")) := by
  constructor
  · intro c m h
    unfold chunkContent
    rw [if_pos h]
  · intro c m hne hjoin
    by_cases hle : c.length ≤ m
    · have h1 : chunkContent c m = [c] := by
        unfold chunkContent
        rw [if_pos hle]
      refine ⟨by rw [h1]; rfl, [jsSplitParagraphs c], by simp, ?_, ?_⟩
      · intro g hg
        rcases List.mem_singleton.mp hg with rfl
        exact jsSplitParagraphs_ne_nil c
      · rw [h1]
        simp [hjoin]
    · obtain ⟨p₀, rest, hparas⟩ : ∃ p₀ rest, jsSplitParagraphs c = p₀ :: rest := by
        cases hsp : jsSplitParagraphs c with
        | nil => exact absurd hsp (jsSplitParagraphs_ne_nil c)
        | cons a b => exact ⟨a, b, rfl⟩
      have hp₀ : p₀ ≠ "" := hne p₀ (hparas ▸ List.mem_cons_self p₀ rest)
      have hrest : ∀ p ∈ rest, p ≠ "" :=
        fun p hp => hne p (hparas ▸ List.mem_cons_of_mem p₀ hp)
      have hfirst : chunkLoop m ([], "") p₀
          = (([] : List (List String)).map (joinWith "\n\n"), joinWith "\n\n" [p₀]) := by
        show (if m < (("" : String) ++ p₀).length ∧ 0 < ("" : String).length
            then _ else _) = _
        rw [if_neg (fun h => absurd h.2 (by decide))]
        rfl
      obtain ⟨G2, gc2, hfold, hflat, hG2, hgc2, hgc2ne⟩ :=
        chunk_grouping m rest hrest [] [p₀] (by simp) (List.cons_ne_nil p₀ [])
          (by
            intro x hx
            rcases List.mem_singleton.mp hx with rfl
            exact hp₀)
      have hchunks : chunkContent c m = (G2 ++ [gc2]).map (joinWith "\n\n") := by
        unfold chunkContent
        rw [if_neg hle, hparas, List.foldl_cons, hfirst, hfold]
        simp only [chunkFinish]
        rw [if_pos (joinWith_ne_empty hgc2 hgc2ne)]
        simp
      simp only [List.flatten_nil, List.nil_append, List.singleton_append] at hflat
      have hflat2 : (G2 ++ [gc2]).flatten = jsSplitParagraphs c := by
        rw [hparas, List.flatten_append, ← hflat]
        simp
      have hGne : ∀ g ∈ G2 ++ [gc2], g ≠ [] := by
        intro g hg
        rcases List.mem_append.mp hg with hg | hg
        · exact (hG2 g hg).1
        · rcases List.mem_singleton.mp hg with rfl
          exact hgc2
      refine ⟨?_, G2 ++ [gc2], hflat2, hGne, hchunks⟩
      rw [hchunks, joinWith_map_flatten hGne, hflat2, hjoin]

/-- C7 counterexample: a content whose paragraphs are separated by three
newlines is split into its two paragraphs and the separator text is
discarded, so rejoining the returned segments with one blank line does not
reproduce the content. -/
theorem c7_counterexample :
    chunkContent "aaa\n\n\nbbb" 5 = ["aaa", "bbb"]
      ∧ joinWith "\n\n" ["aaa", "bbb"] ≠ "aaa\n\n\nbbb" := by decide

theorem c7_witness :
    joinWith "\n\n" (chunkContent "aa\n\nbb\n\ncc" 5) = "aa\n\nbb\n\ncc" :=
  ((c7_amended_roundtrip.2 "aa\n\nbb\n\ncc" 5 (by decide) (by decide)).1)

/-! ## Claim C8: cache round trip -/

/-- C8: restoring the snapshot written by persistKnowledgeBase yields
exactly the persisted documents and vector-store entries, and on that
cache path the embedding service receives no request at all; moreover,
generateEmbeddingsForDocuments only ever requests embeddings for the
documents that do not already carry one, so cached embeddings are never
recomputed. -/
theorem c8_cache_roundtrip :
    (∀ (embed : String → Except String (List ℚ))
        (jsonDocParse : String → Option JsonDocFields) (ts ts2 : String)
        (docs : List KnowledgeDocument) (vs : List VectorStoreEntry)
        (files : List (String × String)),
      loadKnowledgeBase embed jsonDocParse ts2
          (some (persistKnowledgeBase docs vs ts)) files
        = { knowledgeBase := docs, vectorStore := vs, embedRequests := [],
            persisted := none })
    ∧ (∀ (embed : String → Except String (List ℚ))
        (docs : List KnowledgeDocument),
      (generateEmbeddingsForDocuments embed docs).2
        = (docs.filter (fun d => !hasEmbedding d)).map embedInput) :=
  ⟨fun _ _ _ _ _ _ _ => rfl, fun _ _ => rfl⟩

/-! ## Claim C2: semantic search ranking -/

/-- C2: whenever the embedding call for the query succeeds, semanticSearch
returns without error a list in which every result scores strictly above
twenty, sorted descending by relevance, of length at most maxResults, and
in which every result resolves to a document of the knowledge base;
vector-store entries whose documentId matches no document contribute
nothing rather than raising an error. -/
theorem c2_semanticSearch_ranked (sim : List ℚ → List ℚ → ℚ) (qe : List ℚ)
    (query : String) (maxResults : Nat) (vectorStore : List VectorStoreEntry)
    (knowledgeBase : List KnowledgeDocument) :
    ∃ results : List SearchResult,
      semanticSearch sim (.ok qe) query maxResults vectorStore knowledgeBase
          = .ok results
        ∧ (∀ r ∈ results, 20 < r.relevanceScore)
        ∧ results.Pairwise (fun a b => b.relevanceScore ≤ a.relevanceScore)
        ∧ results.length ≤ maxResults
        ∧ (∀ r ∈ results, ∃ doc ∈ knowledgeBase, doc.id = r.documentId) := by
  refine ⟨_, rfl, ?_, ?_, ?_, ?_⟩
  · intro r hr
    have hr2 := mem_jsSortBy.mp (List.mem_of_mem_take hr)
    exact of_decide_eq_true (List.mem_filter.mp hr2).2
  · have htot : ∀ a b : SearchResult,
        decide (b.relevanceScore ≤ a.relevanceScore) = true
          ∨ decide (a.relevanceScore ≤ b.relevanceScore) = true := by
      intro a b
      rcases le_total b.relevanceScore a.relevanceScore with h | h
      · exact Or.inl (decide_eq_true h)
      · exact Or.inr (decide_eq_true h)
    have htrans : ∀ a b c : SearchResult,
        decide (b.relevanceScore ≤ a.relevanceScore) = true →
        decide (c.relevanceScore ≤ b.relevanceScore) = true →
        decide (c.relevanceScore ≤ a.relevanceScore) = true := by
      intro a b c h1 h2
      exact decide_eq_true (le_trans (of_decide_eq_true h2) (of_decide_eq_true h1))
    have hpw := pairwise_jsSortBy htot htrans
      ((vectorStore.filterMap (fun entry =>
        match knowledgeBase.find? (fun d => d.id == entry.documentId) with
        | none => none
        | some doc => some
            { documentId := entry.documentId, title := doc.title,
              excerpt := extractRelevantExcerpt doc.content query 300,
              relevanceScore := sim qe entry.embedding * 100 })).filter
        (fun r => decide (20 < r.relevanceScore)))
    exact ((hpw.sublist (List.take_sublist maxResults _)).imp
      (fun h => of_decide_eq_true h))
  · exact List.length_take_le maxResults _
  · intro r hr
    have hr2 := mem_jsSortBy.mp (List.mem_of_mem_take hr)
    have hr3 := (List.mem_filter.mp hr2).1
    obtain ⟨entry, hentry, heq⟩ := List.mem_filterMap.mp hr3
    cases hfind : knowledgeBase.find? (fun d => d.id == entry.documentId) with
    | none =>
      rw [hfind] at heq
      cases heq
    | some doc =>
      rw [hfind] at heq
      cases heq
      refine ⟨doc, List.mem_of_find?_eq_some hfind, ?_⟩
      have := List.find?_some hfind
      simpa using this

def kbC2 : List KnowledgeDocument :=
  [{ id := "doc1", title := "Policies", content := "Short doc." }]

def vsC2 : List VectorStoreEntry := [{ documentId := "doc1", embedding := [1] }]

theorem c2_witness :
    ∃ results : List SearchResult,
      semanticSearch (fun _ _ => 1) (.ok [1]) "policy" 3 vsC2 kbC2 = .ok results
        ∧ (∀ r ∈ results, 20 < r.relevanceScore)
        ∧ results.Pairwise (fun a b => b.relevanceScore ≤ a.relevanceScore)
        ∧ results.length ≤ 3
        ∧ (∀ r ∈ results, ∃ doc ∈ kbC2, doc.id = r.documentId) :=
  c2_semanticSearch_ranked (fun _ _ => 1) [1] "policy" 3 vsC2 kbC2

/-! ## Claim C3: keyword scoring meets the regular-expression engine -/

def docC3 : KnowledgeDocument :=
  { id := "doc1", title := "Courses", content := "We teach programming." }

/-- C3 evaluation at the failing input: the query token c++ is passed to
the RegExp constructor by basicKeywordSearch, and new RegExp with the
pattern c++ throws nothing-to-repeat, so the search over any nonempty
document list produces no result list at all; the claim that the scoring
never fails, counting tokens as literal substrings, is false on the
code. -/
theorem c3_regex_token_fails :
    basicKeywordSearch "c++ tutorial" [docC3] 3 = none := by decide

/-! ## Claim C5: a tool-call argument string that is not valid JSON -/

def tcC5 : ToolCall :=
  { id := "call_2",
    function := { name := "searchKnowledgeBase", arguments := "not json" } }

def envC5 : TurnEnv :=
  { sim := fun _ _ => 0,
    embedQuery := .error "embedding service down",
    jsonParse := fun _ => none,
    impl := fun _ _ => .ok "result",
    firstCompletion := fun _ => .ok { content := some "", tool_calls := some [tcC5] },
    secondCompletion := fun _ => .ok (some "would have answered") }

/-- C5 evaluation at the failing input: the first completion requests one
tool call whose argument string fails JSON.parse. The parse sits outside
the per-call try block, so the thrown SyntaxError reaches the outer catch
and the whole turn ends with the fixed apology and the unchanged history,
even though the second completion would have succeeded; the claim that the
parse failure becomes a structured per-call error result while the turn
continues is false on the code. -/
theorem c5_parse_failure_aborts_turn :
    envC5.jsonParse "not json" = none
      ∧ envC5.secondCompletion [] = .ok (some "would have answered")
      ∧ chatWithBot envC5 [] [] "hello tool" []
          = { response := apologyText, updatedHistory := [] } :=
  ⟨rfl, rfl, by decide⟩

/-! ## Claim C1: which errors end the turn with the apology -/

/-- C1 (amended): an error that reaches the turn boundary — the first
completion request failing, the JSON parse of some requested tool-call
argument string throwing, or the second completion request failing — makes
chatWithBot return the fixed apology string, identical regardless of the
cause, together with exactly the conversation history that was passed in.
Errors thrown during proactive retrieval and inside tool handlers are
absorbed below the boundary and do not trigger the apology. -/
theorem c1_amended_turn_failure (env : TurnEnv) (kb : List KnowledgeDocument)
    (vs : List VectorStoreEntry) (msg : String) (hist : List Message)
    (h : (∃ e, ∀ L, env.firstCompletion L = .error e)
       ∨ ∃ a toolCalls, (∀ L, env.firstCompletion L = .ok a)
           ∧ a.tool_calls = some toolCalls
           ∧ ((∃ tc ∈ toolCalls, env.jsonParse tc.function.arguments = none)
              ∨ ((∀ tc ∈ toolCalls, (env.jsonParse tc.function.arguments).isSome)
                 ∧ ∃ e, ∀ L, env.secondCompletion L = .error e))) :
    chatWithBot env kb vs msg hist
      = { response := apologyText, updatedHistory := hist } := by
  rcases except_cases (convertAll (baseMessages env kb vs msg hist)) with
    ⟨e, he⟩ | ⟨oa, hoa⟩
  · have hbody : chatTurnBody env kb vs msg hist = .error e := by
      unfold chatTurnBody
      simp only [he]
    exact chatWithBot_of_body_error hbody
  · rcases h with ⟨e, hFirst⟩ | ⟨a, toolCalls, hFirst, hCalls, hrest⟩
    · have hbody : chatTurnBody env kb vs msg hist = .error e := by
        unfold chatTurnBody
        simp only [hoa, hFirst]
      exact chatWithBot_of_body_error hbody
    · rcases hrest with ⟨tc, htc, hnone⟩ | ⟨hParse, e, hSecond⟩
      · have herr : toolResultMessage env tc
            = .error ("Unexpected token in JSON: " ++ tc.function.arguments) := by
          unfold toolResultMessage
          rw [hnone]
        obtain ⟨d, hd⟩ := exceptMap_error_of_mem htc herr
        have hd2 : runToolLoop env toolCalls = .error d := hd
        have hbody : chatTurnBody env kb vs msg hist = .error d := by
          unfold chatTurnBody
          simp only [hoa, hFirst, hCalls, hd2]
        exact chatWithBot_of_body_error hbody
      · obtain ⟨toolMessages, hLoop, hlen, hzip, hOkMsgs⟩ := runToolLoop_ok hParse
        obtain ⟨payload, hpayload⟩ :=
          convertAll_live_ok (a.content.getD "") toolCalls hoa hOkMsgs
        have hbody : chatTurnBody env kb vs msg hist = .error e := by
          unfold chatTurnBody
          simp only [hoa, hFirst, hCalls, hLoop, hpayload, hSecond]
        exact chatWithBot_of_body_error hbody

def tcC1 : ToolCall :=
  { id := "call_1",
    function := { name := "checkAvailability", arguments := "\x7b\x7d" } }

def envC1 : TurnEnv :=
  { sim := fun _ _ => 0,
    embedQuery := .error "embedding service down",
    jsonParse := fun s => some s,
    impl := fun _ _ => .error "calendar rejected",
    firstCompletion := fun _ => .ok { content := some "ok", tool_calls := some [tcC1] },
    secondCompletion := fun _ => .ok (some "done") }

/-- C1 counterexample: a turn during which an error is thrown by the
retrieval step (the embedding call fails on an informational message) and
another by the dispatched tool handler, yet chatWithBot returns the normal
second-completion answer together with an extended history — not the fixed
apology with the unchanged history. The claim that any error thrown during
retrieval or tool execution yields the apology and leaves the history
untouched is therefore false on the code. -/
theorem c1_counterexample :
    envC1.embedQuery = .error "embedding service down"
      ∧ looksInformational "what is the policy?" = true
      ∧ envC1.impl "checkAvailability" "\x7b\x7d" = .error "calendar rejected"
      ∧ chatWithBot envC1 [] [] "what is the policy?" []
          = { response := "done",
              updatedHistory := [mkUserMessage "what is the policy?",
                                 mkAssistantMessage "done"] }
      ∧ ({ response := "done",
           updatedHistory := [mkUserMessage "what is the policy?",
                              mkAssistantMessage "done"] } : ChatResponse)
          ≠ { response := apologyText, updatedHistory := ([] : List Message) } :=
  ⟨rfl, by decide, rfl, by decide, by decide⟩

def envC1w : TurnEnv :=
  { sim := fun _ _ => 0,
    embedQuery := .error "embedding service down",
    jsonParse := fun _ => none,
    impl := fun _ _ => .error "unused",
    firstCompletion := fun _ => .error "completion service unreachable",
    secondCompletion := fun _ => .error "completion service unreachable" }

theorem c1_witness :
    chatWithBot envC1w [] [] "hello tool" []
      = { response := apologyText, updatedHistory := [] } :=
  c1_amended_turn_failure envC1w [] [] "hello tool" []
    (Or.inl ⟨"completion service unreachable", fun _ => rfl⟩)

/-! ## Claim C9: history grows by exactly the user and final assistant
message -/

/-- C9: on every successful turn — whether or not tool calls were
requested — chatWithBot returns the prior history followed by exactly the
user message and the final assistant message, whose content is also the
returned response; earlier entries are untouched and the intermediate
tool-call and tool-result messages never enter the returned history. -/
theorem c9_history_two_appends (env : TurnEnv) (kb : List KnowledgeDocument)
    (vs : List VectorStoreEntry) (msg : String) (hist : List Message)
    (a : AssistantTurn)
    (hHist : ∀ m ∈ hist, msgOk m)
    (hFirst : ∀ L, env.firstCompletion L = .ok a)
    (hBranch : a.tool_calls = none
      ∨ ∃ toolCalls c, a.tool_calls = some toolCalls
          ∧ (∀ tc ∈ toolCalls, (env.jsonParse tc.function.arguments).isSome)
          ∧ (∀ L, env.secondCompletion L = .ok c)) :
    ∃ finalContent, chatWithBot env kb vs msg hist
      = { response := finalContent,
          updatedHistory := hist
            ++ [mkUserMessage msg, mkAssistantMessage finalContent] } := by
  obtain ⟨oa, hoa⟩ := convertAll_ok (baseMessages_msgOk env kb vs msg hHist)
  rcases hBranch with hNone | ⟨toolCalls, c, hCalls, hParse, hSecond⟩
  · exact ⟨a.content.getD "",
      chatWithBot_of_body_ok (chatTurnBody_no_tools hoa (hFirst oa) hNone)⟩
  · obtain ⟨toolMessages, hLoop, hlen, hzip, hOkMsgs⟩ := runToolLoop_ok hParse
    obtain ⟨payload, hpayload⟩ :=
      convertAll_live_ok (a.content.getD "") toolCalls hoa hOkMsgs
    exact ⟨c.getD "", chatWithBot_of_body_ok
      (chatTurnBody_tools hoa (hFirst oa) hCalls hLoop hpayload (hSecond payload))⟩

def envC9 : TurnEnv :=
  { sim := fun _ _ => 0,
    embedQuery := .error "embedding service down",
    jsonParse := fun _ => none,
    impl := fun _ _ => .error "unused",
    firstCompletion := fun _ => .ok { content := some "direct answer", tool_calls := none },
    secondCompletion := fun _ => .error "unused" }

theorem c9_witness :
    ∃ finalContent, chatWithBot envC9 [] [] "hello tool" []
      = { response := finalContent,
          updatedHistory := [mkUserMessage "hello tool",
                             mkAssistantMessage finalContent] } :=
  c9_history_two_appends envC9 [] [] "hello tool" []
    { content := some "direct answer", tool_calls := none }
    (fun m hm => absurd hm (List.not_mem_nil m)) (fun _ => rfl) (Or.inl rfl)

/-! ## Claim C4: a throwing tool handler becomes a structured payload -/

/-- C4: when the first completion requests tool calls whose argument
strings all parse, every call whose dispatched handler throws — including
dispatch of an unregistered tool name — yields, at exactly the position of
that call, a tool-role message tagged with its tool_call_id and carrying
the JSON error payload built from the thrown message; the loop completes,
and the turn proceeds to the second completion, whose content is the final
answer. -/
theorem c4_handler_error_payload (env : TurnEnv) (kb : List KnowledgeDocument)
    (vs : List VectorStoreEntry) (msg : String) (hist : List Message)
    (a : AssistantTurn) (toolCalls : List ToolCall) (c : Option String)
    (hHist : ∀ m ∈ hist, msgOk m)
    (hFirst : ∀ L, env.firstCompletion L = .ok a)
    (hCalls : a.tool_calls = some toolCalls)
    (hParse : ∀ tc ∈ toolCalls, (env.jsonParse tc.function.arguments).isSome)
    (hSecond : ∀ L, env.secondCompletion L = .ok c) :
    ∃ toolMessages : List Message,
      runToolLoop env toolCalls = .ok toolMessages
        ∧ toolMessages.length = toolCalls.length
        ∧ (∀ p ∈ toolCalls.zip toolMessages, ∀ args e,
            env.jsonParse p.1.function.arguments = some args →
            callFunction env.impl p.1.function.name args = .error e →
            p.2 = mkToolMessage p.1.id (jsonErrorString e))
        ∧ chatWithBot env kb vs msg hist
            = { response := c.getD "",
                updatedHistory := hist
                  ++ [mkUserMessage msg, mkAssistantMessage (c.getD "")] } := by
  obtain ⟨oa, hoa⟩ := convertAll_ok (baseMessages_msgOk env kb vs msg hHist)
  obtain ⟨toolMessages, hLoop, hlen, hzip, hOkMsgs⟩ := runToolLoop_ok hParse
  obtain ⟨payload, hpayload⟩ :=
    convertAll_live_ok (a.content.getD "") toolCalls hoa hOkMsgs
  refine ⟨toolMessages, hLoop, hlen, ?_, chatWithBot_of_body_ok
    (chatTurnBody_tools hoa (hFirst oa) hCalls hLoop hpayload (hSecond payload))⟩
  intro p hp args e hargs herrcall
  rw [hzip p hp args hargs]
  unfold toolOutcomeMessage
  rw [herrcall]

def tcC4 : ToolCall :=
  { id := "call_9", function := { name := "bogusTool", arguments := "\x7b\x7d" } }

def envC4 : TurnEnv :=
  { sim := fun _ _ => 0,
    embedQuery := .error "embedding service down",
    jsonParse := fun s => some s,
    impl := fun _ _ => .ok "unused",
    firstCompletion := fun _ => .ok { content := some "calling", tool_calls := some [tcC4] },
    secondCompletion := fun _ => .ok (some "final answer") }

theorem c4_witness :
    ∃ toolMessages : List Message,
      runToolLoop envC4 [tcC4] = .ok toolMessages
        ∧ toolMessages.length = ([tcC4] : List ToolCall).length
        ∧ (∀ p ∈ ([tcC4] : List ToolCall).zip toolMessages, ∀ args e,
            envC4.jsonParse p.1.function.arguments = some args →
            callFunction envC4.impl p.1.function.name args = .error e →
            p.2 = mkToolMessage p.1.id (jsonErrorString e))
        ∧ chatWithBot envC4 [] [] "hello tool" []
            = { response := "final answer",
                updatedHistory := [mkUserMessage "hello tool",
                                   mkAssistantMessage "final answer"] } :=
  c4_handler_error_payload envC4 [] [] "hello tool" []
    { content := some "calling", tool_calls := some [tcC4] } [tcC4]
    (some "final answer")
    (fun m hm => absurd hm (List.not_mem_nil m)) (fun _ => rfl) rfl
    (by decide) (fun _ => rfl)

/-! ## Claim C10: the assistant reply is pushed twice before the second
request -/

/-- C10: in every turn whose first completion requests tool calls, the
live message list sent to the second completion contains the assistant
reply twice in a row — first without and then with the tool-call
requests, both with the same content — followed by the tool messages; and
convertToOpenAIMessage maps both copies to the same plain assistant
entry, so neither carries the tool-call requests in the second request. -/
theorem c10_double_assistant_append (env : TurnEnv)
    (kb : List KnowledgeDocument) (vs : List VectorStoreEntry) (msg : String)
    (hist : List Message) (a : AssistantTurn) (toolCalls : List ToolCall)
    (hHist : ∀ m ∈ hist, msgOk m)
    (hFirst : ∀ L, env.firstCompletion L = .ok a)
    (hCalls : a.tool_calls = some toolCalls)
    (hParse : ∀ tc ∈ toolCalls, (env.jsonParse tc.function.arguments).isSome) :
    ∃ toolMessages : List Message,
      secondRequestMessages env kb vs msg hist
        = some (baseMessages env kb vs msg hist
            ++ [mkAssistantMessage (a.content.getD ""),
                mkAssistantToolCalls (a.content.getD "") toolCalls]
            ++ toolMessages)
        ∧ convertToOpenAIMessage (mkAssistantMessage (a.content.getD ""))
            = .ok (.assistant (a.content.getD ""))
        ∧ convertToOpenAIMessage (mkAssistantToolCalls (a.content.getD "") toolCalls)
            = .ok (.assistant (a.content.getD "")) := by
  obtain ⟨oa, hoa⟩ := convertAll_ok (baseMessages_msgOk env kb vs msg hHist)
  obtain ⟨toolMessages, hLoop, hlen, hzip, hOkMsgs⟩ := runToolLoop_ok hParse
  refine ⟨toolMessages, ?_, rfl, rfl⟩
  unfold secondRequestMessages
  simp only [hoa, hFirst, hCalls, hLoop]
  rfl

theorem c10_witness :
    ∃ toolMessages : List Message,
      secondRequestMessages envC4 [] [] "hello tool" []
        = some (baseMessages envC4 [] [] "hello tool" []
            ++ [mkAssistantMessage "calling", mkAssistantToolCalls "calling" [tcC4]]
            ++ toolMessages)
        ∧ convertToOpenAIMessage (mkAssistantMessage "calling")
            = .ok (.assistant "calling")
        ∧ convertToOpenAIMessage (mkAssistantToolCalls "calling" [tcC4])
            = .ok (.assistant "calling") :=
  c10_double_assistant_append envC4 [] [] "hello tool" []
    { content := some "calling", tool_calls := some [tcC4] } [tcC4]
    (fun m hm => absurd hm (List.not_mem_nil m)) (fun _ => rfl) rfl (by decide)
